import Mathlib

/-!
Shallow embedding of `tap_xero/pull.py`: the extraction-strategy engine
(`Puller` and its subclasses), the retry/backoff wrapper around
`_make_request`, and the nested bookmark state.

Modelling conventions:
* Python dicts used as request-option mappings become association lists
  (`Options`) with Python's write-or-append update semantics (`setOpt`).
* The per-stream bookmark dict holds exactly the three cursor keys the code
  writes (`updated_at`, `page`, `journal_number`); a key that is absent or
  set to Python `None` is `Option.none`.
* Timestamps are the strings the records carry; Python's `>=` on strings is
  lexicographic comparison of code points, embedded as `strLeb`.
* The external libraries `pendulum.parse` / `singer.utils.strftime` round a
  timestamp string through a datetime; on the ISO strings this engine stores
  the round-trip is the identity, so both are modelled as the identity on
  strings, and `datetime.isoformat` normalization in `_set_last_updated`
  likewise leaves the embedded string values unchanged.
* The remote client `xero.filter(tap_stream_id, **options)` is a parameter
  `fetch : Options → List Rec`; for the retry wrapper, where successive
  attempts may differ, the backend is a script `Nat → FetchOutcome` giving
  the outcome of each attempt.
-/

namespace TapXero

/-- Python string `<=`: lexicographic comparison of code points. -/
def strLebAux : List Char → List Char → Bool
  | [], _ => true
  | _ :: _, [] => false
  | c :: cs, d :: ds =>
    if c.toNat < d.toNat then true
    else if d.toNat < c.toNat then false
    else strLebAux cs ds

/-- Embedding of the Python comparison `a <= b` on strings: `strLeb a b` means the Python comparison `a <= b` on strings. -/
def strLeb (a b : String) : Bool := strLebAux a.data b.data

/-- A record returned by the remote client: only the fields `pull.py` reads
(`UpdatedDateUTC`, `CreatedDateUTC`, `JournalNumber`) are modelled. -/
structure Rec where
  updatedDateUTC : String
  createdDateUTC : String
  journalNumber : Nat
deriving DecidableEq, Repr

instance : Inhabited Rec := ⟨⟨"", "", 0⟩⟩

/-- A value stored in a request-options dict: page numbers are ints, the
`since` / `order` options are strings. -/
inductive OptVal where
  | nat (n : Nat)
  | str (s : String)
deriving DecidableEq, Repr

/-- A Python dict used for request options, as an association list in
insertion order. -/
abbrev Options := List (String × OptVal)

/-- Python dict lookup `o.get(k)`. -/
def getOpt (o : Options) (k : String) : Option OptVal :=
  match o with
  | [] => none
  | (k', v) :: rest => if k' = k then some v else getOpt rest k

/-- Python dict assignment `o[k] = v`: overwrite in place, else append. -/
def setOpt (o : Options) (k : String) (v : OptVal) : Options :=
  match o with
  | [] => [(k, v)]
  | (k', v') :: rest => if k' = k then (k, v) :: rest else (k', v') :: setOpt rest k v

/-- The per-stream bookmark dict `state["bookmarks"][tap_stream_id]`. Each
field is `none` when the key is absent or holds Python `None`. -/
structure Bookmark where
  page : Option Nat
  updated_at : Option String
  journal_number : Option Nat
deriving DecidableEq, Repr

def emptyBookmark : Bookmark := ⟨none, none, none⟩

/-! ## `_make_request` and the backoff decorator (pull.py lines 39-52) -/

/-- Outcome of a single raw fetch attempt: either a record batch or an
`HTTPError` with a status code. -/
inductive FetchOutcome where
  | ok (recs : List Rec)
  | httpErr (status : Nat)

/-- What one invocation of the `_make_request` body produces: the returned
batch, Python's implicit `None` return (the 401 branch falls through),
a raised `RateLimitException`, or a re-raised `HTTPError`. -/
inductive ReqResult where
  | batch (recs : List Rec)
  | noneReturn
  | rateLimited
  | fatal (status : Nat)
deriving DecidableEq, Repr

/-- Body of `_make_request` (lines 43-52): on success return the batch; on
HTTPError with status 401 call `credentials.refresh` (counted in the second
component) and fall off the end of the function, returning `None`; on 503
raise `RateLimitException`; otherwise re-raise. -/
def make_request_body : FetchOutcome → ReqResult × Nat
  | .ok recs => (.batch recs, 0)
  | .httpErr s =>
    if s = 401 then (.noneReturn, 1)
    else if s = 503 then (.rateLimited, 0)
    else (.fatal s, 0)

/-- Result of running the `backoff.on_exception` wrapper around
`_make_request`: the final outcome, the total number of
`credentials.refresh` calls, the number of attempts made, and the sequence
of backoff delays (`backoff.expo` with `factor=2`: the n-th retry waits
`2 * 2^n` before jitter). -/
structure BackoffResult where
  result : ReqResult
  refreshes : Nat
  attempts : Nat
  delays : List Nat
deriving DecidableEq, Repr

/-- The `backoff.on_exception(backoff.expo, RateLimitException, max_tries=10,
factor=2)` loop: run the body on the next scripted attempt; retry only on
`RateLimitException` while tries remain, accumulating the exponential delay
schedule; any other outcome (batch, `None`, re-raised error) is final.
`remaining` is the number of invocations still allowed. -/
def backoffAux (script : Nat → FetchOutcome) : Nat → Nat → BackoffResult
  | 0, _ => ⟨.rateLimited, 0, 0, []⟩
  | remaining + 1, attempt =>
    let r := make_request_body (script attempt)
    match r.1 with
    | .rateLimited =>
      if remaining = 0 then ⟨.rateLimited, r.2, 1, []⟩
      else
        let rest := backoffAux script remaining (attempt + 1)
        ⟨rest.result, r.2 + rest.refreshes, 1 + rest.attempts, 2 * 2 ^ attempt :: rest.delays⟩
    | other => ⟨other, r.2, 1, []⟩

/-- The decorated `_make_request` as called by the strategies: the decorated body with
`max_tries=10`, starting at attempt 0. -/
def make_request (script : Nat → FetchOutcome) : BackoffResult :=
  backoffAux script 10 0

/-! ## Bookmark helpers (pull.py lines 54-77) -/

/-- Value of `_order_by` for the default `bookmark_property = "UpdatedDateUTC"`. -/
def order_by : String := "UpdatedDateUTC ASC"

/-- Body of `_set_last_updated` (lines 66-69): write the (already string-normalized)
timestamp into `bookmark["updated_at"]`. -/
def set_last_updated (bm : Bookmark) (v : String) : Bookmark :=
  { bm with updated_at := some v }

/-- Python truthiness of `bookmark.get("updated_at")`: falsy when the key is
absent (`None`) or holds the empty string. -/
def pyFalsy : Option String → Bool
  | none => true
  | some s => s = ""

/-- Body of `_update_start_state` (lines 71-74) acting on the per-stream bookmark:
seed `updated_at` from the configured start date when it is falsy, then
return the bookmark together with the parsed cursor
(`pendulum.parse` modelled as the identity on the stored string). -/
def update_start_state (start_date : String) (bm : Bookmark) : Bookmark × String :=
  let bm' := if pyFalsy bm.updated_at then set_last_updated bm start_date else bm
  (bm', bm'.updated_at.getD "")

/-- Value of `page[-1][prop]` for a timestamp-carrying bookmark property: the last
record's `UpdatedDateUTC` (batches handed to it are never empty). -/
def lastTS (page : List Rec) : String := (page.getLastD default).updatedDateUTC

/-! ## `PaginatedPull._paginate` (pull.py lines 94-111)

The `while True` loop guarded by `num_pages_yielded > 1e6` runs at most
1000001 iterations that yield, so it is embedded with a structural fuel of
1000002: fuel `1000002 - k` at an iteration that has already yielded `k`
pages, making fuel 0 exactly the iteration at which the guard
`num_pages_yielded > 1e6` raises. -/

/-- Everything observable about one exhausted run of the `_paginate`
generator: the `(page, next_page_num)` pairs it yielded, the contents of the
options dict at each request it issued (Python unpacks `**options` per
call), whether it aborted with the million-page exception, and the final
contents of the options dict it was handed (which is the shared mutable
default when the caller omitted `options`). -/
structure PagResult where
  pages : List (List Rec × Nat)
  requests : List Options
  runaway : Bool
  finalOpts : Options
deriving DecidableEq, Repr

/-- One loop iteration of `_paginate`: check the million-page guard, set
`options[pagination_key] = curr_page_num`, fetch, stop on an empty page,
otherwise compute the next page number, yield, and continue. -/
def paginateAux (fetch : Options → List Rec) (key : String)
    (getNext : Nat → List Rec → Nat) : Nat → Options → Nat → PagResult
  | 0, opts, _ => ⟨[], [], true, opts⟩
  | fuel + 1, opts, curr =>
    let opts' := setOpt opts key (.nat curr)
    let page := fetch opts'
    if page.isEmpty then ⟨[], [opts'], false, opts'⟩
    else
      let nxt := getNext curr page
      let r := paginateAux fetch key getNext fuel opts' nxt
      ⟨(page, nxt) :: r.pages, opts' :: r.requests, r.runaway, r.finalOpts⟩

/-- The default `get_next_page_num`: `curr_page_num + 1`. -/
def nextIncr : Nat → List Rec → Nat := fun curr _ => curr + 1

/-- The generator `_paginate(options, first_page_num, pagination_key,
get_next_page_num)` run to exhaustion. The guard `num_pages_yielded > 1e6` fires when 1000001
pages have been yielded, i.e. after 1000001 units of fuel are spent. -/
def paginate (fetch : Options → List Rec) (key : String)
    (getNext : Nat → List Rec → Nat) (opts : Options) (first : Nat) : PagResult :=
  paginateAux fetch key getNext 1000001 opts first

/-! ## The strategy runs -/

/-- Everything observable about one exhausted run of a strategy's
`yield_pages` generator: the batches yielded to the consumer, the bookmark
contents at each yield point (every bookmark write happens before the
corresponding `yield`), the bookmark when the generator finishes or aborts,
whether it aborted with the runaway-pagination exception, the options at
each request, and the final contents of the options dict it threaded into
`_paginate` (the shared default cell, when the call used the default). -/
structure RunResult where
  batches : List (List Rec)
  trace : List Bookmark
  finalBm : Bookmark
  err : Bool
  requests : List Options
  finalOpts : Options
deriving DecidableEq, Repr

/-- Bookmark states after each element of a yielded sequence: `upd` applied
cumulatively, recording the state at each yield point. -/
def bmTrace (upd : Bookmark → List Rec × Nat → Bookmark) (bm : Bookmark) :
    List (List Rec × Nat) → List Bookmark
  | [] => []
  | s :: rest =>
    let bm' := upd bm s
    bm' :: bmTrace upd bm' rest

/-- Per-page bookmark writes of `PaginatedPull.yield_pages` (lines 118-119):
`bookmark["page"] = next_num` then `_set_last_updated(page[-1][prop])`. -/
def paginatedUpd (bm : Bookmark) (s : List Rec × Nat) : Bookmark :=
  { bm with page := some s.2, updated_at := some (lastTS s.1) }

/-- Resume page `self._bookmark.get("page") or 1` (line 115): absent, `None` and `0` are
all falsy and give the default first page 1. -/
def firstPageNum : Option Nat → Nat
  | none => 1
  | some n => if n = 0 then 1 else n

/-- Run of `PaginatedPull.yield_pages` (lines 113-121): seed the start cursor,
resume from the bookmarked page, paginate with a fresh
`dict(since=start, order=self._order_by)`, write `page` and `updated_at`
before each yield, and reset `page` to `None` when the sweep completes (the
reset line is not reached when `_paginate` raises the runaway exception). -/
def PaginatedPull_yield_pages (fetch : Options → List Rec) (start_date : String)
    (bm0 : Bookmark) : RunResult :=
  let seeded := update_start_state start_date bm0
  let bm1 := seeded.1
  let start := seeded.2
  let first := firstPageNum bm1.page
  let opts0 : Options := [("since", .str start), ("order", .str order_by)]
  let pr := paginate fetch "page" nextIncr opts0 first
  let tr := bmTrace paginatedUpd bm1 pr.pages
  let bmEnd := tr.getLastD bm1
  { batches := pr.pages.map (·.1)
    trace := tr
    finalBm := if pr.runaway then bmEnd else { bmEnd with page := none }
    err := pr.runaway
    requests := pr.requests
    finalOpts := pr.finalOpts }

/-- Run of `JournalPull.yield_pages` (lines 130-137): resume from
`bookmark.get("journal_number") or 0`, paginate with the shared default
options dict, the pagination key `"offset"`, and
`get_next_page_num = lambda _, page: page[-1]["JournalNumber"]`; write only
`journal_number` before each yield; nothing is reset on completion. -/
def JournalPull_yield_pages (fetch : Options → List Rec) (bm0 : Bookmark)
    (cell : Options) : RunResult :=
  let first := bm0.journal_number.getD 0
  let pr := paginate fetch "offset" (fun _ page => (page.getLastD default).journalNumber)
    cell first
  let tr := bmTrace (fun bm s => { bm with journal_number := some s.2 }) bm0 pr.pages
  { batches := pr.pages.map (·.1)
    trace := tr
    finalBm := tr.getLastD bm0
    err := pr.runaway
    requests := pr.requests
    finalOpts := pr.finalOpts }

/-- External `singer.utils.strftime` applied to the parsed start cursor: the external
round-trip is modelled as the identity on the stored ISO string. -/
def strftimeCursor (s : String) : String := s

/-- Run of `LinkedTransactionsPull.yield_pages` (lines 146-153): seed the start
cursor, resume from the bookmarked page, paginate with the shared default
options dict and the default pagination key and increment; write `page` and
`updated_at` from the unfiltered page before each yield, but yield only the
records whose `UpdatedDateUTC` is `>=` the start cursor; reset `page` to
`None` when the sweep completes. -/
def LinkedTransactionsPull_yield_pages (fetch : Options → List Rec)
    (start_date : String) (bm0 : Bookmark) (cell : Options) : RunResult :=
  let seeded := update_start_state start_date bm0
  let bm1 := seeded.1
  let start := seeded.2
  let first := firstPageNum bm1.page
  let pr := paginate fetch "page" nextIncr cell first
  let tr := bmTrace paginatedUpd bm1 pr.pages
  let bmEnd := tr.getLastD bm1
  { batches := pr.pages.map
      (fun s => s.1.filter (fun x => strLeb (strftimeCursor start) x.updatedDateUTC))
    trace := tr
    finalBm := if pr.runaway then bmEnd else { bmEnd with page := none }
    err := pr.runaway
    requests := pr.requests
    finalOpts := pr.finalOpts }

/-- Run of `IncrementingPull.yield_pages` (lines 81-86), parametrized by the
stream's bookmark property accessor (`UpdatedDateUTC` by default,
`CreatedDateUTC` for `BankTransfersPull`): one fetch with
`dict(since=start)`; when the page is non-empty, write `updated_at` from its
last record and yield it. -/
def IncrementingPull_yield_pages (prop : Rec → String) (fetch : Options → List Rec)
    (start_date : String) (bm0 : Bookmark) : RunResult :=
  let seeded := update_start_state start_date bm0
  let bm1 := seeded.1
  let start := seeded.2
  let opts : Options := [("since", .str start)]
  let page := fetch opts
  if page.isEmpty then
    { batches := [], trace := [], finalBm := bm1, err := false
      requests := [opts], finalOpts := opts }
  else
    let bm2 := set_last_updated bm1 (prop (page.getLastD default))
    { batches := [page], trace := [bm2], finalBm := bm2, err := false
      requests := [opts], finalOpts := opts }

/-- Run of `EverythingPull.yield_pages` (lines 156-158): one fetch through
`_make_request()` with its (never-written) default empty options; no
bookmark access at all. -/
def EverythingPull_yield_pages (fetch : Options → List Rec) (bm0 : Bookmark) : RunResult :=
  { batches := [fetch []], trace := [], finalBm := bm0, err := false
    requests := [[]], finalOpts := [] }

/-! ## The pipeline state and `_bookmark` (pull.py lines 58-64) -/

/-- The pipeline state dict: the `"bookmarks"` key (absent until `_bookmark`
creates it) maps stream ids to their bookmark dicts, in insertion order;
`extra` carries every other top-level key the driver may have stored, with
opaque values. -/
structure TapState where
  bookmarks : Option (List (String × Bookmark))
  extra : List (String × Nat)
deriving DecidableEq, Repr

/-- Lookup of a stream's entry in the `"bookmarks"` dict. -/
def lookupBm (l : List (String × Bookmark)) (k : String) : Option Bookmark :=
  match l with
  | [] => none
  | (k', v) :: rest => if k' = k then some v else lookupBm rest k

/-- Assignment into the `"bookmarks"` dict: overwrite in place, else append. -/
def setBm (l : List (String × Bookmark)) (k : String) (v : Bookmark) :
    List (String × Bookmark) :=
  match l with
  | [] => [(k, v)]
  | (k', v') :: rest => if k' = k then (k, v) :: rest else (k', v') :: setBm rest k v

/-- The side effect of reading `self._bookmark`: create `state["bookmarks"]`
and the per-stream entry when absent. -/
def ensureBookmark (sid : String) (st : TapState) : TapState :=
  let bms := st.bookmarks.getD []
  let bms' := if (lookupBm bms sid).isSome then bms else setBm bms sid emptyBookmark
  { st with bookmarks := some bms' }

/-- Read the per-stream bookmark dict (empty when not yet created). -/
def readBookmark (sid : String) (st : TapState) : Bookmark :=
  (lookupBm (st.bookmarks.getD []) sid).getD emptyBookmark

/-- Net effect on the pipeline state of mutating the per-stream dict
returned by `self._bookmark`: the nested structure is created if needed and
the stream's entry holds the mutated bookmark. -/
def writeBookmark (sid : String) (bm : Bookmark) (st : TapState) : TapState :=
  let st1 := ensureBookmark sid st
  { st1 with bookmarks := some (setBm (st1.bookmarks.getD []) sid bm) }

/-- Body of `_update_start_state` at the level of the whole pipeline state: reading
`self._bookmark` lazily creates the nested entries, then the bookmark-level
seeding runs. Returns the new state and the parsed cursor. -/
def update_start_state_state (start_date sid : String) (st : TapState) :
    TapState × String :=
  let st1 := ensureBookmark sid st
  let r := update_start_state start_date (readBookmark sid st1)
  (writeBookmark sid r.1 st1, r.2)

/-- The closed set of `yield_pages` implementations in pull.py. -/
inductive Strategy where
  | incrementing
  | bankTransfers
  | paginated
  | journal
  | linkedTransactions
  | everything
deriving DecidableEq, Repr

/-- External inputs of one strategy run: the remote client, the configured
start date, and the current contents of `_paginate`'s shared mutable default
options dict (used by the strategies that omit the `options` argument). -/
structure Env where
  fetch : Options → List Rec
  start_date : String
  cell : Options

/-- Dispatch of `yield_pages` over the strategy hierarchy, acting on the
per-stream bookmark. -/
def strategyRun : Strategy → Env → Bookmark → RunResult
  | .incrementing, e, bm => IncrementingPull_yield_pages Rec.updatedDateUTC e.fetch e.start_date bm
  | .bankTransfers, e, bm => IncrementingPull_yield_pages Rec.createdDateUTC e.fetch e.start_date bm
  | .paginated, e, bm => PaginatedPull_yield_pages e.fetch e.start_date bm
  | .journal, e, bm => JournalPull_yield_pages e.fetch bm e.cell
  | .linkedTransactions, e, bm => LinkedTransactionsPull_yield_pages e.fetch e.start_date bm e.cell
  | .everything, e, bm => EverythingPull_yield_pages e.fetch bm

/-- A strategy run at the level of the whole pipeline state. Every bookmark
access in pull.py goes through `self._bookmark`, i.e. through the single
per-stream entry, so the run's net effect on the state is to create the
nested structure and replace that entry with the run's final bookmark;
`EverythingPull` never touches the state at all. -/
def strategyRunState (s : Strategy) (e : Env) (sid : String) (st : TapState) : TapState :=
  match s with
  | .everything => st
  | _ => writeBookmark sid (strategyRun s e (readBookmark sid st)).finalBm st

/-! ## Helper lemmas: option dicts -/

theorem getOpt_setOpt_self (o : Options) (k : String) (v : OptVal) :
    getOpt (setOpt o k v) k = some v := by
  induction o with
  | nil => simp [setOpt, getOpt]
  | cons p rest ih =>
    by_cases h : p.1 = k
    · simp [setOpt, getOpt, h]
    · simp [setOpt, getOpt, h, ih]

theorem getOpt_setOpt_ne (o : Options) (k k' : String) (v : OptVal) (h : k' ≠ k) :
    getOpt (setOpt o k v) k' = getOpt o k' := by
  induction o with
  | nil => simp [setOpt, getOpt, Ne.symm h]
  | cons p rest ih =>
    by_cases hp : p.1 = k
    · simp [setOpt, getOpt, hp, Ne.symm h]
    · simp [setOpt, getOpt, hp, ih]

theorem lookupBm_setBm_self (l : List (String × Bookmark)) (k : String) (v : Bookmark) :
    lookupBm (setBm l k v) k = some v := by
  induction l with
  | nil => simp [setBm, lookupBm]
  | cons p rest ih =>
    by_cases h : p.1 = k
    · simp [setBm, lookupBm, h]
    · simp [setBm, lookupBm, h, ih]

theorem lookupBm_setBm_ne (l : List (String × Bookmark)) (k k' : String) (v : Bookmark)
    (h : k' ≠ k) : lookupBm (setBm l k v) k' = lookupBm l k' := by
  induction l with
  | nil => simp [setBm, lookupBm, Ne.symm h]
  | cons p rest ih =>
    by_cases hp : p.1 = k
    · simp [setBm, lookupBm, hp, Ne.symm h]
    · simp [setBm, lookupBm, hp, ih]

theorem readBookmark_ensureBookmark (sid : String) (st : TapState) :
    readBookmark sid (ensureBookmark sid st) = readBookmark sid st := by
  unfold readBookmark ensureBookmark
  cases h : lookupBm (st.bookmarks.getD []) sid with
  | none => simp [h, lookupBm_setBm_self]
  | some bm => simp [h]

theorem readBookmark_writeBookmark (sid : String) (bm : Bookmark) (st : TapState) :
    readBookmark sid (writeBookmark sid bm st) = bm := by
  unfold readBookmark writeBookmark
  simp [lookupBm_setBm_self]

theorem writeBookmark_extra (sid : String) (bm : Bookmark) (st : TapState) :
    (writeBookmark sid bm st).extra = st.extra := by
  simp [writeBookmark, ensureBookmark]

theorem writeBookmark_frame (sid sid' : String) (bm : Bookmark) (st : TapState)
    (h : sid' ≠ sid) :
    lookupBm ((writeBookmark sid bm st).bookmarks.getD []) sid' =
      lookupBm (st.bookmarks.getD []) sid' := by
  unfold writeBookmark ensureBookmark
  cases hl : lookupBm (st.bookmarks.getD []) sid with
  | none => simp [hl, lookupBm_setBm_ne _ _ _ _ h]
  | some b => simp [hl, lookupBm_setBm_ne _ _ _ _ h]

/-! ## Helper lemmas: request options issued by `_paginate` -/

theorem paginateAux_requests_first (fetch : Options → List Rec) (key : String)
    (getNext : Nat → List Rec → Nat) :
    ∀ fuel opts curr, (paginateAux fetch key getNext fuel opts curr).requests ≠ [] →
      getOpt ((paginateAux fetch key getNext fuel opts curr).requests.getD 0 []) key =
        some (OptVal.nat curr) := by
  intro fuel
  cases fuel with
  | zero => intro opts curr h; simp [paginateAux] at h
  | succ n =>
    intro opts curr _
    cases hfe : fetch (setOpt opts key (OptVal.nat curr)) with
    | nil => simp [paginateAux, hfe, getOpt_setOpt_self]
    | cons x xs =>
      simp [paginateAux, hfe, getOpt_setOpt_self]

theorem paginateAux_requests_nextIncr (fetch : Options → List Rec) (key : String) :
    ∀ fuel opts curr i, i < (paginateAux fetch key nextIncr fuel opts curr).requests.length →
      getOpt ((paginateAux fetch key nextIncr fuel opts curr).requests.getD i []) key =
        some (OptVal.nat (curr + i)) := by
  intro fuel
  induction fuel with
  | zero => intro opts curr i hi; simp [paginateAux] at hi
  | succ n ih =>
    intro opts curr i hi
    cases hfe : fetch (setOpt opts key (OptVal.nat curr)) with
    | nil =>
      simp only [paginateAux, hfe, List.isEmpty_nil, if_true, List.length_singleton] at hi ⊢
      have h0 : i = 0 := by omega
      subst h0
      simp [getOpt_setOpt_self]
    | cons x xs =>
      simp only [paginateAux, hfe, List.isEmpty_cons, Bool.false_eq_true, if_false,
        List.length_cons] at hi ⊢
      cases i with
      | zero => simp [getOpt_setOpt_self]
      | succ j =>
        simp only [List.getD_cons_succ]
        have hj : j < (paginateAux fetch key nextIncr n
            (setOpt opts key (OptVal.nat curr)) (nextIncr curr (x :: xs))).requests.length := by
          omega
        have := ih (setOpt opts key (OptVal.nat curr)) (nextIncr curr (x :: xs)) j hj
        rw [this]
        have harith : nextIncr curr (x :: xs) + j = curr + (j + 1) := by
          simp [nextIncr]
          omega
        rw [harith]

theorem paginateAux_pages_nextIncr (fetch : Options → List Rec) (key : String) :
    ∀ fuel opts curr i, i < (paginateAux fetch key nextIncr fuel opts curr).pages.length →
      ((paginateAux fetch key nextIncr fuel opts curr).pages.getD i ([], 0)).2 =
        curr + i + 1 := by
  intro fuel
  induction fuel with
  | zero => intro opts curr i hi; simp [paginateAux] at hi
  | succ n ih =>
    intro opts curr i hi
    cases hfe : fetch (setOpt opts key (OptVal.nat curr)) with
    | nil => simp [paginateAux, hfe] at hi
    | cons x xs =>
      simp only [paginateAux, hfe, List.isEmpty_cons, Bool.false_eq_true, if_false,
        List.length_cons] at hi ⊢
      cases i with
      | zero => simp [nextIncr]
      | succ j =>
        simp only [List.getD_cons_succ]
        have hj : j < (paginateAux fetch key nextIncr n
            (setOpt opts key (OptVal.nat curr)) (nextIncr curr (x :: xs))).pages.length := by
          omega
        rw [ih _ _ j hj]
        simp [nextIncr]
        omega

theorem paginateAux_pages_constNext (fetch : Options → List Rec) (key : String)
    (nextOf : List Rec → Nat) :
    ∀ fuel opts curr, ∀ s ∈ (paginateAux fetch key (fun _ p => nextOf p) fuel opts curr).pages,
      s.2 = nextOf s.1 := by
  intro fuel
  induction fuel with
  | zero => intro opts curr s hs; simp [paginateAux] at hs
  | succ n ih =>
    intro opts curr s hs
    cases hfe : fetch (setOpt opts key (OptVal.nat curr)) with
    | nil => simp [paginateAux, hfe] at hs
    | cons x xs =>
      simp only [paginateAux, hfe, List.isEmpty_cons, Bool.false_eq_true, if_false,
        List.mem_cons] at hs
      rcases hs with h1 | h2
      · rw [h1]
      · exact ih _ _ s h2

theorem paginateAux_requests_constNext (fetch : Options → List Rec) (key : String)
    (nextOf : List Rec → Nat) :
    ∀ fuel opts curr i,
      i + 1 < (paginateAux fetch key (fun _ p => nextOf p) fuel opts curr).requests.length →
      i < (paginateAux fetch key (fun _ p => nextOf p) fuel opts curr).pages.length →
      getOpt ((paginateAux fetch key (fun _ p => nextOf p) fuel opts curr).requests.getD (i + 1) [])
          key =
        some (OptVal.nat (nextOf ((paginateAux fetch key (fun _ p => nextOf p) fuel opts
          curr).pages.getD i ([], 0)).1)) := by
  intro fuel
  induction fuel with
  | zero => intro opts curr i hi _; simp [paginateAux] at hi
  | succ n ih =>
    intro opts curr i hi hp
    cases hfe : fetch (setOpt opts key (OptVal.nat curr)) with
    | nil => simp [paginateAux, hfe] at hi
    | cons x xs =>
      simp only [paginateAux, hfe, List.isEmpty_cons, Bool.false_eq_true, if_false,
        List.length_cons] at hi hp ⊢
      cases i with
      | zero =>
        simp only [List.getD_cons_succ, List.getD_cons_zero]
        have hne : (paginateAux fetch key (fun _ p => nextOf p) n
            (setOpt opts key (OptVal.nat curr)) (nextOf (x :: xs))).requests ≠ [] := by
          intro hnil
          rw [List.length_eq_zero.mpr hnil] at hi
          omega
        exact paginateAux_requests_first fetch key _ n _ _ hne
      | succ j =>
        simp only [List.getD_cons_succ]
        exact ih _ _ j (by omega) (by omega)

theorem paginateAux_requests_preserve (fetch : Options → List Rec) (key : String)
    (getNext : Nat → List Rec → Nat) (k' : String) (hk : k' ≠ key) :
    ∀ fuel opts curr,
      (∀ q ∈ (paginateAux fetch key getNext fuel opts curr).requests,
        getOpt q k' = getOpt opts k') ∧
      getOpt (paginateAux fetch key getNext fuel opts curr).finalOpts k' = getOpt opts k' := by
  intro fuel
  induction fuel with
  | zero => intro opts curr; simp [paginateAux]
  | succ n ih =>
    intro opts curr
    cases hfe : fetch (setOpt opts key (OptVal.nat curr)) with
    | nil =>
      simp [paginateAux, hfe, getOpt_setOpt_ne _ _ _ _ hk]
    | cons x xs =>
      simp only [paginateAux, hfe, List.isEmpty_cons, Bool.false_eq_true, if_false]
      obtain ⟨ihr, ihf⟩ := ih (setOpt opts key (OptVal.nat curr)) (getNext curr (x :: xs))
      constructor
      · intro q hq
        rcases List.mem_cons.mp hq with h1 | h2
        · rw [h1]
          exact getOpt_setOpt_ne _ _ _ _ hk
        · rw [ihr q h2]
          exact getOpt_setOpt_ne _ _ _ _ hk
      · rw [ihf]
        exact getOpt_setOpt_ne _ _ _ _ hk

theorem paginateAux_finalOpts_key (fetch : Options → List Rec) (key : String)
    (getNext : Nat → List Rec → Nat) :
    ∀ fuel opts curr, 1 ≤ fuel ∨ (getOpt opts key).isSome = true →
      (getOpt (paginateAux fetch key getNext fuel opts curr).finalOpts key).isSome = true := by
  intro fuel
  induction fuel with
  | zero =>
    intro opts curr h
    rcases h with h | h
    · omega
    · simpa [paginateAux] using h
  | succ n ih =>
    intro opts curr _
    cases hfe : fetch (setOpt opts key (OptVal.nat curr)) with
    | nil => simp [paginateAux, hfe, getOpt_setOpt_self]
    | cons x xs =>
      simp only [paginateAux, hfe, List.isEmpty_cons, Bool.false_eq_true, if_false]
      exact ih _ _ (Or.inr (by simp [getOpt_setOpt_self]))

theorem paginateAux_requests_key (fetch : Options → List Rec) (key : String)
    (getNext : Nat → List Rec → Nat) :
    ∀ fuel opts curr, ∀ q ∈ (paginateAux fetch key getNext fuel opts curr).requests,
      (getOpt q key).isSome = true := by
  intro fuel
  induction fuel with
  | zero => intro opts curr q hq; simp [paginateAux] at hq
  | succ n ih =>
    intro opts curr q hq
    cases hfe : fetch (setOpt opts key (OptVal.nat curr)) with
    | nil =>
      simp only [paginateAux, hfe, List.isEmpty_nil, if_true, List.mem_singleton] at hq
      rw [hq]
      simp [getOpt_setOpt_self]
    | cons x xs =>
      simp only [paginateAux, hfe, List.isEmpty_cons, Bool.false_eq_true, if_false,
        List.mem_cons] at hq
      rcases hq with h1 | h2
      · rw [h1]
        simp [getOpt_setOpt_self]
      · exact ih _ _ q h2

theorem paginateAux_congr_fetch (fetch : Options → List Rec) (key : String)
    (getNext : Nat → List Rec → Nat)
    (hf : ∀ o o', getOpt o key = getOpt o' key → fetch o = fetch o') :
    ∀ fuel opts opts' curr,
      (paginateAux fetch key getNext fuel opts curr).pages =
        (paginateAux fetch key getNext fuel opts' curr).pages ∧
      (paginateAux fetch key getNext fuel opts curr).runaway =
        (paginateAux fetch key getNext fuel opts' curr).runaway := by
  intro fuel
  induction fuel with
  | zero => intro opts opts' curr; simp [paginateAux]
  | succ n ih =>
    intro opts opts' curr
    have hfeq : fetch (setOpt opts key (OptVal.nat curr)) =
        fetch (setOpt opts' key (OptVal.nat curr)) := by
      apply hf
      rw [getOpt_setOpt_self, getOpt_setOpt_self]
    cases hfe : fetch (setOpt opts key (OptVal.nat curr)) with
    | nil =>
      have hfe' : fetch (setOpt opts' key (OptVal.nat curr)) = [] := by
        rw [← hfeq, hfe]
      simp [paginateAux, hfe, hfe']
    | cons x xs =>
      have hfe' : fetch (setOpt opts' key (OptVal.nat curr)) = x :: xs := by
        rw [← hfeq, hfe]
      simp only [paginateAux, hfe, hfe', List.isEmpty_cons, Bool.false_eq_true, if_false]
      obtain ⟨hp, hr⟩ := ih (setOpt opts key (OptVal.nat curr))
        (setOpt opts' key (OptVal.nat curr)) (getNext curr (x :: xs))
      exact ⟨by rw [hp], hr⟩

/-! ## Helper lemmas: the lexicographic timestamp order -/

theorem strLebAux_trans : ∀ a b c : List Char,
    strLebAux a b = true → strLebAux b c = true → strLebAux a c = true := by
  intro a
  induction a with
  | nil => intro b c _ _; rfl
  | cons x xs ih =>
    intro b c hab hbc
    cases b with
    | nil => simp [strLebAux] at hab
    | cons y ys =>
      cases c with
      | nil => simp [strLebAux] at hbc
      | cons z zs =>
        simp only [strLebAux] at hab hbc ⊢
        split at hab
        · split at hbc
          · simp; omega
          · split at hbc
            · exact absurd hbc (by simp)
            · simp; omega
        · split at hab
          · exact absurd hab (by simp)
          · split at hbc
            · simp; omega
            · split at hbc
              · exact absurd hbc (by simp)
              · have hxz : ¬ x.toNat < z.toNat := by omega
                have hzx : ¬ z.toNat < x.toNat := by omega
                simp only [hxz, hzx, if_false]
                exact ih ys zs hab hbc

/-- The relation `a <= b` on Python timestamp strings, as a proposition. -/
def tsLe (a b : String) : Prop := strLeb a b = true

instance tsLe_decidable (a b : String) : Decidable (tsLe a b) :=
  inferInstanceAs (Decidable (strLeb a b = true))

instance : DecidableRel tsLe := tsLe_decidable

instance : IsTrans String tsLe :=
  ⟨fun _ _ _ hab hbc => strLebAux_trans _ _ _ hab hbc⟩

/-! ## Helper lemmas: lasts of a batch sequence -/

theorem getLastD_mem {α : Type} [Inhabited α] (l : List α) (h : l ≠ []) :
    l.getLastD default ∈ l := by
  have hm := List.getLast_mem h
  rw [List.getLastD_eq_getLast?, List.getLast?_eq_getLast _ h]
  exact hm

theorem lasts_sublist_flatten {α : Type} [Inhabited α] :
    ∀ ps : List (List α), (∀ p ∈ ps, p ≠ []) →
      List.Sublist (ps.map (fun p => p.getLastD default)) ps.flatten := by
  intro ps
  induction ps with
  | nil => intro _; simp
  | cons p rest ih =>
    intro h
    simp only [List.map_cons, List.flatten_cons]
    have h1 : List.Sublist [p.getLastD default] p :=
      List.singleton_sublist.mpr (getLastD_mem p (h p (by simp)))
    have h2 := ih (fun q hq => h q (by simp [hq]))
    exact List.Sublist.append h1 h2

/-- Executable form of "the sequence of timestamp strings is ascending
(non-decreasing) in the Python string order". -/
def ascendingStr : List String → Bool
  | [] => true
  | [_] => true
  | a :: b :: rest => strLeb a b && ascendingStr (b :: rest)

theorem ascendingStr_iff_chain (l : List String) :
    ascendingStr l = true ↔ List.Chain' tsLe l := by
  induction l with
  | nil => simp [ascendingStr]
  | cons a rest ih =>
    cases rest with
    | nil => simp [ascendingStr]
    | cons b bs =>
      rw [List.chain'_cons, ← ih]
      simp [ascendingStr, tsLe]

theorem chain_lasts (ps : List (List Rec)) (h : ∀ p ∈ ps, p ≠ [])
    (hc : List.Chain' tsLe (ps.flatten.map Rec.updatedDateUTC)) :
    List.Chain' tsLe (ps.map lastTS) := by
  have hsub : List.Sublist (ps.map (fun p => p.getLastD default)) ps.flatten :=
    lasts_sublist_flatten ps h
  have hsub2 : List.Sublist ((ps.map (fun p => p.getLastD default)).map Rec.updatedDateUTC)
      (ps.flatten.map Rec.updatedDateUTC) := hsub.map _
  have hp : (ps.flatten.map Rec.updatedDateUTC).Pairwise tsLe :=
    List.chain'_iff_pairwise.mp hc
  have hp2 := hp.sublist hsub2
  rw [List.chain'_iff_pairwise]
  have : (ps.map (fun p => p.getLastD default)).map Rec.updatedDateUTC = ps.map lastTS := by
    simp [List.map_map, lastTS, Function.comp]
  rwa [this] at hp2

/-! ## Helper lemmas: bookmark traces -/

theorem bmTrace_paginatedUpd (bm : Bookmark) (l : List (List Rec × Nat)) :
    bmTrace paginatedUpd bm l =
      l.map (fun s => ⟨some s.2, some (lastTS s.1), bm.journal_number⟩) := by
  induction l generalizing bm with
  | nil => rfl
  | cons s rest ih => simp [bmTrace, paginatedUpd, ih]

theorem bmTrace_journalUpd (bm : Bookmark) (l : List (List Rec × Nat)) :
    bmTrace (fun bm s => { bm with journal_number := some s.2 }) bm l =
      l.map (fun s => ⟨bm.page, bm.updated_at, some s.2⟩) := by
  induction l generalizing bm with
  | nil => rfl
  | cons s rest ih => simp [bmTrace, ih]

/-! ## Helper lemmas: the `_paginate` loop -/

theorem getLastD_irrel {α : Type} (l : List α) (d d' : α) (h : l ≠ []) :
    l.getLastD d = l.getLastD d' := by
  rw [List.getLastD_eq_getLast?, List.getLastD_eq_getLast?, List.getLast?_eq_getLast _ h]
  simp

theorem paginateAux_pages_ne (fetch : Options → List Rec) (key : String)
    (getNext : Nat → List Rec → Nat) :
    ∀ fuel opts curr, ∀ s ∈ (paginateAux fetch key getNext fuel opts curr).pages,
      s.1 ≠ [] := by
  intro fuel
  induction fuel with
  | zero => intro opts curr s hs; simp [paginateAux] at hs
  | succ n ih =>
    intro opts curr s hs
    cases hfe : fetch (setOpt opts key (OptVal.nat curr)) with
    | nil => simp [paginateAux, hfe] at hs
    | cons x xs =>
      simp only [paginateAux, hfe, List.isEmpty_cons, Bool.false_eq_true, if_false,
        List.mem_cons] at hs
      rcases hs with h1 | h2
      · rw [h1]
        simp
      · exact ih _ _ s h2

theorem paginateAux_pages_length_le (fetch : Options → List Rec) (key : String)
    (getNext : Nat → List Rec → Nat) :
    ∀ fuel opts curr, (paginateAux fetch key getNext fuel opts curr).pages.length ≤ fuel := by
  intro fuel
  induction fuel with
  | zero => intro opts curr; simp [paginateAux]
  | succ n ih =>
    intro opts curr
    cases hfe : fetch (setOpt opts key (OptVal.nat curr)) with
    | nil => simp [paginateAux, hfe]
    | cons x xs =>
      simp only [paginateAux, hfe, List.isEmpty_cons, Bool.false_eq_true, if_false,
        List.length_cons]
      exact Nat.succ_le_succ (ih _ _)

theorem paginateAux_runaway_length (fetch : Options → List Rec) (key : String)
    (getNext : Nat → List Rec → Nat) :
    ∀ fuel opts curr, (paginateAux fetch key getNext fuel opts curr).runaway = true →
      (paginateAux fetch key getNext fuel opts curr).pages.length = fuel := by
  intro fuel
  induction fuel with
  | zero => intro opts curr _; simp [paginateAux]
  | succ n ih =>
    intro opts curr hr
    cases hfe : fetch (setOpt opts key (OptVal.nat curr)) with
    | nil => simp [paginateAux, hfe] at hr
    | cons x xs =>
      simp only [paginateAux, hfe, List.isEmpty_cons, Bool.false_eq_true, if_false,
        List.length_cons] at hr ⊢
      exact congrArg Nat.succ (ih _ _ hr)

theorem paginateAux_runaway_of_never_empty (fetch : Options → List Rec) (key : String)
    (getNext : Nat → List Rec → Nat) (h : ∀ o, fetch o ≠ []) :
    ∀ fuel opts curr, (paginateAux fetch key getNext fuel opts curr).runaway = true := by
  intro fuel
  induction fuel with
  | zero => intro opts curr; simp [paginateAux]
  | succ n ih =>
    intro opts curr
    cases hfe : fetch (setOpt opts key (OptVal.nat curr)) with
    | nil => exact absurd hfe (h _)
    | cons x xs =>
      simp only [paginateAux, hfe, List.isEmpty_cons, Bool.false_eq_true, if_false]
      exact ih _ _

theorem paginateAux_stop (fetch : Options → List Rec) (key : String)
    (getNext : Nat → List Rec → Nat) :
    ∀ fuel opts curr, (paginateAux fetch key getNext fuel opts curr).runaway = false →
      (paginateAux fetch key getNext fuel opts curr).requests.length =
        (paginateAux fetch key getNext fuel opts curr).pages.length + 1 ∧
      fetch ((paginateAux fetch key getNext fuel opts curr).requests.getLastD []) = [] := by
  intro fuel
  induction fuel with
  | zero => intro opts curr hr; simp [paginateAux] at hr
  | succ n ih =>
    intro opts curr hr
    cases hfe : fetch (setOpt opts key (OptVal.nat curr)) with
    | nil =>
      refine ⟨by simp [paginateAux, hfe], ?_⟩
      simp only [paginateAux, hfe, List.isEmpty_nil, if_true, List.getLastD_cons]
      simp [hfe]
    | cons x xs =>
      simp only [paginateAux, hfe, List.isEmpty_cons, Bool.false_eq_true, if_false] at hr ⊢
      obtain ⟨h1, h2⟩ := ih _ _ hr
      have hne : (paginateAux fetch key getNext n
          (setOpt opts key (OptVal.nat curr)) (getNext curr (x :: xs))).requests ≠ [] := by
        intro hnil
        rw [hnil] at h1
        simp at h1
      refine ⟨by simp [h1], ?_⟩
      rw [List.getLastD_cons, getLastD_irrel _ _ [] hne]
      exact h2

/-! ## Glue lemmas -/

theorem update_start_state_page (start_date : String) (bm : Bookmark) :
    (update_start_state start_date bm).1.page = bm.page := by
  unfold update_start_state set_last_updated
  by_cases h : pyFalsy bm.updated_at = true
  · simp [h]
  · simp [h]

theorem update_start_state_journal (start_date : String) (bm : Bookmark) :
    (update_start_state start_date bm).1.journal_number = bm.journal_number := by
  unfold update_start_state set_last_updated
  by_cases h : pyFalsy bm.updated_at = true
  · simp [h]
  · simp [h]

theorem getD_map_lt {α β : Type} (f : α → β) (l : List α) (n : Nat) (d : β) (d' : α)
    (h : n < l.length) : (l.map f).getD n d = f (l.getD n d') := by
  induction l generalizing n with
  | nil => simp at h
  | cons a as ih =>
    cases n with
    | zero => simp
    | succ m =>
      simp only [List.map_cons, List.getD_cons_succ]
      exact ih m (by simpa using Nat.lt_of_succ_lt_succ h)

theorem getD_mem_lt {α : Type} (l : List α) (n : Nat) (d : α) (h : n < l.length) :
    l.getD n d ∈ l := by
  induction l generalizing n with
  | nil => simp at h
  | cons a as ih =>
    cases n with
    | zero => simp
    | succ m =>
      simp only [List.getD_cons_succ, List.mem_cons]
      exact Or.inr (ih m (by simpa using Nat.lt_of_succ_lt_succ h))

theorem getLastD_map {α β : Type} (f : α → β) (l : List α) (d : β) (d' : α)
    (h : l ≠ []) : (l.map f).getLastD d = f (l.getLastD d') := by
  rw [List.getLastD_eq_getLast?, List.getLastD_eq_getLast?, List.getLast?_map,
    List.getLast?_eq_getLast _ h]
  simp

theorem getLastD_mem_ne {α : Type} (l : List α) (d : α) (h : l ≠ []) :
    l.getLastD d ∈ l := by
  have hm := List.getLast_mem h
  rw [List.getLastD_eq_getLast?, List.getLast?_eq_getLast _ h]
  exact hm

theorem paginateAux_requests_ne_nil (fetch : Options → List Rec) (key : String)
    (getNext : Nat → List Rec → Nat) (fuel : Nat) (opts : Options) (curr : Nat)
    (h : 1 ≤ fuel) :
    (paginateAux fetch key getNext fuel opts curr).requests ≠ [] := by
  cases fuel with
  | zero => omega
  | succ n =>
    cases hfe : fetch (setOpt opts key (OptVal.nat curr)) with
    | nil => simp [paginateAux, hfe]
    | cons x xs => simp [paginateAux, hfe]

theorem backoffAux_attempts_le (script : Nat → FetchOutcome) :
    ∀ fuel a, (backoffAux script fuel a).attempts ≤ fuel := by
  intro fuel
  induction fuel with
  | zero => intro a; simp [backoffAux]
  | succ n ih =>
    intro a
    simp only [backoffAux]
    cases hr : (make_request_body (script a)).1 with
    | rateLimited =>
      by_cases hn : n = 0
      · subst hn
        simp [hr]
      · simp only [hr, hn, if_false]
        have := ih (a + 1)
        omega
    | batch recs => simp [hr]
    | noneReturn => simp [hr]
    | fatal s => simp [hr]

theorem backoffAux_step_rl (script : Nat → FetchOutcome) (n a : Nat)
    (h : script a = .httpErr 503) (hn : n ≠ 0) :
    backoffAux script (n + 1) a =
      { result := (backoffAux script n (a + 1)).result
        refreshes := (backoffAux script n (a + 1)).refreshes
        attempts := 1 + (backoffAux script n (a + 1)).attempts
        delays := 2 * 2 ^ a :: (backoffAux script n (a + 1)).delays } := by
  simp [backoffAux, make_request_body, h, hn]

theorem backoffAux_last_rl (script : Nat → FetchOutcome) (a : Nat)
    (h : script a = .httpErr 503) :
    backoffAux script 1 a = ⟨.rateLimited, 0, 1, []⟩ := by
  simp [backoffAux, make_request_body, h]

theorem backoffAux_step_ok (script : Nat → FetchOutcome) (n a : Nat) (b : List Rec)
    (h : script a = .ok b) :
    backoffAux script (n + 1) a = ⟨.batch b, 0, 1, []⟩ := by
  simp [backoffAux, make_request_body, h]

theorem backoffAux_all_rl (script : Nat → FetchOutcome) :
    ∀ fuel a, 1 ≤ fuel → (∀ i, i < fuel → script (a + i) = .httpErr 503) →
      backoffAux script fuel a =
        ⟨.rateLimited, 0, fuel, (List.range (fuel - 1)).map (fun i => 2 * 2 ^ (a + i))⟩ := by
  intro fuel
  induction fuel with
  | zero => intro a h _; omega
  | succ n ih =>
    intro a _ hs
    cases Nat.eq_zero_or_pos n with
    | inl h0 =>
      subst h0
      rw [backoffAux_last_rl script a (by simpa using hs 0 (by omega))]
      simp
    | inr hpos =>
      have h0 : script a = .httpErr 503 := by simpa using hs 0 (by omega)
      rw [backoffAux_step_rl script n a h0 (by omega)]
      rw [ih (a + 1) hpos (fun i hi => by
        have := hs (i + 1) (by omega)
        rw [show a + 1 + i = a + (i + 1) by omega]
        exact this)]
      have hd : (List.range (n + 1 - 1)).map (fun i => 2 * 2 ^ (a + i)) =
          2 * 2 ^ a :: (List.range (n - 1)).map (fun i => 2 * 2 ^ (a + 1 + i)) := by
        rw [Nat.add_sub_cancel]
        conv_lhs => rw [show n = (n - 1) + 1 by omega, List.range_succ_eq_map]
        simp only [List.map_cons, List.map_map, Nat.add_zero]
        refine congrArg _ ?_
        apply List.map_congr_left
        intro i _
        simp only [Function.comp_apply]
        have he : a + Nat.succ i = a + 1 + i := by omega
        rw [he]
      rw [hd]
      dsimp only
      congr 1
      omega

/-! ## Claim theorems -/

/-- Concrete backend script: attempt 0 raises HTTP 401; every later attempt
would succeed with a one-record batch. -/
def script401 : Nat → FetchOutcome := fun n =>
  if n = 0 then .httpErr 401
  else .ok [⟨"2020-01-02T00:00:00", "2020-01-02T00:00:00", 7⟩]

/-- C1 (code behavior at the failing input): when the fetch raises an HTTP
error with status 401, `_make_request` calls `credentials.refresh` exactly
once but then swallows the error and returns `None` — it does not re-raise,
the retry wrapper makes no second attempt (only `RateLimitException` is
retried), and the batch the next attempt would have returned is never
fetched. This contradicts the claim that the 401 is re-raised and the
bounded retry wrapper makes exactly one more attempt returning the
successful batch. -/
theorem C1_make_request_401_swallowed :
    make_request script401 =
      { result := .noneReturn, refreshes := 1, attempts := 1, delays := [] } ∧
    ∀ b : List Rec, (make_request script401).result ≠ .batch b := by
  constructor
  · decide
  · intro b hb
    have : (make_request script401).result = .noneReturn := by decide
    rw [this] at hb
    exact ReqResult.noConfusion hb

/-- C4: on HTTP 503 the body raises the distinguished `RateLimitException`
and the `backoff` wrapper retries it with exponential delays `2 * 2 ^ n`
capped at 10 attempts total; three consecutive 503s followed by a success
return the successful batch on the 4th attempt, ten consecutive 503s
exhaust the bound and surface the rate-limit error, and no run ever makes
more than 10 attempts. -/
theorem C4_rate_limit_retry (script : Nat → FetchOutcome) (b : List Rec) :
    ((script 0 = .httpErr 503 ∧ script 1 = .httpErr 503 ∧ script 2 = .httpErr 503 ∧
        script 3 = .ok b) →
      make_request script =
        { result := .batch b, refreshes := 0, attempts := 4,
          delays := [2 * 2 ^ 0, 2 * 2 ^ 1, 2 * 2 ^ 2] }) ∧
    ((∀ i, i < 10 → script i = .httpErr 503) →
      make_request script =
        { result := .rateLimited, refreshes := 0, attempts := 10,
          delays := [2 * 2 ^ 0, 2 * 2 ^ 1, 2 * 2 ^ 2, 2 * 2 ^ 3, 2 * 2 ^ 4, 2 * 2 ^ 5,
            2 * 2 ^ 6, 2 * 2 ^ 7, 2 * 2 ^ 8] }) ∧
    (make_request script).attempts ≤ 10 := by
  refine ⟨?_, ?_, backoffAux_attempts_le script 10 0⟩
  · rintro ⟨h0, h1, h2, h3⟩
    show backoffAux script 10 0 = _
    rw [show (10 : Nat) = 9 + 1 from rfl, backoffAux_step_rl script 9 0 h0 (by omega)]
    rw [show (9 : Nat) = 8 + 1 from rfl, backoffAux_step_rl script 8 1 h1 (by omega)]
    rw [show (8 : Nat) = 7 + 1 from rfl, backoffAux_step_rl script 7 2 h2 (by omega)]
    rw [show (7 : Nat) = 6 + 1 from rfl, backoffAux_step_ok script 6 3 b h3]
    simp
  · intro h
    show backoffAux script 10 0 = _
    rw [backoffAux_all_rl script 10 0 (by omega) (fun i hi => by simpa using h i hi)]
    decide

/-- Concrete backend script: attempts 0-2 raise HTTP 503, attempt 3
succeeds. -/
def script503 : Nat → FetchOutcome := fun n =>
  if n < 3 then .httpErr 503
  else .ok [⟨"2020-01-02T00:00:00", "2020-01-02T00:00:00", 7⟩]

/-- Witness for C4 at the concrete script with three rate limits followed
by a success. -/
theorem C4_rate_limit_retry_witness :
    make_request script503 =
      { result := .batch [⟨"2020-01-02T00:00:00", "2020-01-02T00:00:00", 7⟩],
        refreshes := 0, attempts := 4,
        delays := [2 * 2 ^ 0, 2 * 2 ^ 1, 2 * 2 ^ 2] } :=
  (C4_rate_limit_retry script503
    [⟨"2020-01-02T00:00:00", "2020-01-02T00:00:00", 7⟩]).1 ⟨rfl, rfl, rfl, rfl⟩

/-- C7: the pagination loop is bounded: no run of `_paginate` yields more
than 1000001 pages; a backend whose pages are never empty makes the loop hit
the million-page guard and abort with the fatal runaway exception (after
yielding exactly 1000001 > 10^6 pages), and the paginated strategy's run
then ends in the error state instead of looping forever. -/
theorem C7_pagination_bounded (fetch : Options → List Rec) (key : String)
    (getNext : Nat → List Rec → Nat) (opts : Options) (first : Nat)
    (start_date : String) (bm0 : Bookmark) :
    (paginate fetch key getNext opts first).pages.length ≤ 1000001 ∧
    ((∀ o, fetch o ≠ []) →
      (paginate fetch key getNext opts first).runaway = true ∧
      (paginate fetch key getNext opts first).pages.length = 1000001 ∧
      (PaginatedPull_yield_pages fetch start_date bm0).err = true) := by
  refine ⟨paginateAux_pages_length_le fetch key getNext 1000001 opts first, fun h => ?_⟩
  have hr := paginateAux_runaway_of_never_empty fetch key getNext h 1000001 opts first
  refine ⟨hr, paginateAux_runaway_length fetch key getNext 1000001 opts first hr, ?_⟩
  simp only [PaginatedPull_yield_pages, paginate]
  exact paginateAux_runaway_of_never_empty fetch "page" nextIncr h 1000001 _ _

/-- Witness for C7: a backend that always returns one record never
terminates normally; the run aborts through the million-page guard. -/
theorem C7_pagination_bounded_witness :
    (paginate (fun _ => [default]) "page" nextIncr [] 1).runaway = true ∧
    (paginate (fun _ => [default]) "page" nextIncr [] 1).pages.length = 1000001 ∧
    (PaginatedPull_yield_pages (fun _ => [default]) "2020-01-01T00:00:00"
      emptyBookmark).err = true :=
  (C7_pagination_bounded (fun _ => [default]) "page" nextIncr [] 1
    "2020-01-01T00:00:00" emptyBookmark).2 (fun o => by simp)

/-- C3: the paginated strategy resumes from the bookmarked page (a bookmark
of 3 makes the first fetch request page 3; an absent bookmark requests page
1) and requests consecutive page numbers from there; per yielded page the
`page` bookmark is set to the next page number and `updated_at` to the last
record's timestamp, both already visible at the yield point; iteration
stops at the first empty fetch; and when the sweep completes the `page`
bookmark is cleared to `None`. -/
theorem C3_paginated_resume_and_reset (fetch : Options → List Rec) (start_date : String)
    (bm0 : Bookmark) (r : RunResult)
    (hr : r = PaginatedPull_yield_pages fetch start_date bm0) :
    firstPageNum (some 3) = 3 ∧
    firstPageNum none = 1 ∧
    (∀ i, i < r.requests.length →
      getOpt (r.requests.getD i []) "page" =
        some (OptVal.nat (firstPageNum bm0.page + i))) ∧
    (∀ n, n < r.trace.length →
      (r.trace.getD n emptyBookmark).page = some (firstPageNum bm0.page + n + 1) ∧
      (r.trace.getD n emptyBookmark).updated_at = some (lastTS (r.batches.getD n []))) ∧
    (r.err = false →
      (∀ b ∈ r.batches, b ≠ []) ∧
      r.requests.length = r.batches.length + 1 ∧
      fetch (r.requests.getLastD []) = []) ∧
    (r.err = false → r.finalBm.page = none) := by
  subst hr
  refine ⟨rfl, rfl, ?_, ?_, ?_, ?_⟩
  · intro i hi
    simp only [PaginatedPull_yield_pages, paginate] at hi ⊢
    rw [paginateAux_requests_nextIncr fetch "page" 1000001 _ _ i hi]
    rw [update_start_state_page]
  · intro n hn
    simp only [PaginatedPull_yield_pages, paginate, bmTrace_paginatedUpd] at hn ⊢
    rw [List.length_map] at hn
    constructor
    · rw [getD_map_lt _ _ n emptyBookmark ([], 0) hn]
      rw [paginateAux_pages_nextIncr fetch "page" 1000001 _ _ n hn]
      rw [update_start_state_page]
    · rw [getD_map_lt _ _ n emptyBookmark ([], 0) hn,
        getD_map_lt _ _ n [] ([], 0) hn]
  · intro herr
    simp only [PaginatedPull_yield_pages, paginate] at herr ⊢
    obtain ⟨h1, h2⟩ := paginateAux_stop fetch "page" nextIncr 1000001 _ _ herr
    refine ⟨?_, ?_, h2⟩
    · intro b hb
      rw [List.mem_map] at hb
      obtain ⟨s, hs, hsb⟩ := hb
      rw [← hsb]
      exact paginateAux_pages_ne fetch "page" nextIncr 1000001 _ _ s hs
    · rw [List.length_map]
      exact h1
  · intro herr
    simp only [PaginatedPull_yield_pages, paginate] at herr ⊢
    simp [herr]

/-- Concrete paginated backend: page 3 has one record, page 4 has two,
page 5 is empty. -/
def fetchPag : Options → List Rec := fun o =>
  match getOpt o "page" with
  | some (.nat 3) => [⟨"2020-01-02T00:00:00", "", 7⟩]
  | some (.nat 4) => [⟨"2020-01-03T00:00:00", "", 8⟩, ⟨"2020-01-04T00:00:00", "", 9⟩]
  | _ => []

/-- Witness for C3 at a concrete backend with a bookmarked page of 3:
the first request asks for page 3, the sweep stops at the empty page 5,
and the page bookmark is reset to `None`. -/
theorem C3_paginated_resume_and_reset_witness :
    getOpt ((PaginatedPull_yield_pages fetchPag "2020-01-01T00:00:00"
        ⟨some 3, none, none⟩).requests.getD 0 []) "page" =
      some (OptVal.nat (firstPageNum (some 3) + 0)) ∧
    (PaginatedPull_yield_pages fetchPag "2020-01-01T00:00:00"
        ⟨some 3, none, none⟩).finalBm.page = none :=
  ⟨(C3_paginated_resume_and_reset fetchPag "2020-01-01T00:00:00" ⟨some 3, none, none⟩
      _ rfl).2.2.1 0 (by decide),
   (C3_paginated_resume_and_reset fetchPag "2020-01-01T00:00:00" ⟨some 3, none, none⟩
      _ rfl).2.2.2.2.2 (by decide)⟩

/-- Concrete journal backend: at offset 41 one batch whose records are
ascending by `UpdatedDateUTC` (the class's bookmark property) and whose
final record carries sequence number 57; the next fetch is empty. -/
def fetchJournal : Options → List Rec := fun o =>
  match getOpt o "offset" with
  | some (.nat 41) =>
    [⟨"2020-01-02T00:00:00", "", 50⟩, ⟨"2020-01-03T00:00:00", "", 57⟩]
  | _ => []

/-- C2 counterexample: the claim quantifies over every stream, but the
journals stream never writes `updated_at`. In this run the fetched batches
are ascending by the stream's bookmark property, one batch is yielded
successfully, yet after it the `updated_at` bookmark is still absent
instead of the last record's bookmark-property value
`"2020-01-03T00:00:00"`. -/
theorem C2_counterexample_journal :
    ascendingStr ((JournalPull_yield_pages fetchJournal ⟨none, none, some 41⟩
        []).batches.flatten.map Rec.updatedDateUTC) = true ∧
    (JournalPull_yield_pages fetchJournal ⟨none, none, some 41⟩ []).batches.length = 1 ∧
    (JournalPull_yield_pages fetchJournal ⟨none, none, some 41⟩ []).err = false ∧
    lastTS ((JournalPull_yield_pages fetchJournal ⟨none, none, some 41⟩
        []).batches.getD 0 []) = "2020-01-03T00:00:00" ∧
    ((JournalPull_yield_pages fetchJournal ⟨none, none, some 41⟩ []).trace.getD 0
        emptyBookmark).updated_at = none ∧
    (none : Option String) ≠ some "2020-01-03T00:00:00" := by
  refine ⟨by decide, by decide, by decide, by decide, by decide, by decide⟩

/-- C2 (amended to the strategies that write `updated_at`, here the
paginated strategy the claim cites): in every run whose fetched batches are
ascending by the stream's bookmark property, the `updated_at` value at each
yield point equals the bookmark-property value of the last record of the
corresponding batch, and the written values are non-decreasing across
batches. -/
theorem C2_paginated_updated_at_monotone (fetch : Options → List Rec)
    (start_date : String) (bm0 : Bookmark) (r : RunResult)
    (hr : r = PaginatedPull_yield_pages fetch start_date bm0) :
    r.trace.map Bookmark.updated_at = r.batches.map (fun p => some (lastTS p)) ∧
    (∀ (prop : Rec → String) (fetch2 : Options → List Rec),
      (IncrementingPull_yield_pages prop fetch2 start_date bm0).trace.map
          Bookmark.updated_at =
        (IncrementingPull_yield_pages prop fetch2 start_date bm0).batches.map
          (fun p => some (prop (p.getLastD default)))) ∧
    (ascendingStr (r.batches.flatten.map Rec.updatedDateUTC) = true →
      ascendingStr (r.batches.map lastTS) = true) := by
  subst hr
  refine ⟨?_, ?_, ?_⟩
  · simp only [PaginatedPull_yield_pages, paginate, bmTrace_paginatedUpd, List.map_map]
    rfl
  · intro prop fetch2
    simp only [IncrementingPull_yield_pages]
    cases hfe : fetch2 [("since",
        OptVal.str (update_start_state start_date bm0).2)] with
    | nil => simp
    | cons x xs => simp [set_last_updated]
  · intro hc
    rw [ascendingStr_iff_chain] at hc ⊢
    simp only [PaginatedPull_yield_pages, paginate] at hc ⊢
    refine chain_lasts _ ?_ hc
    intro b hb
    rw [List.mem_map] at hb
    obtain ⟨s, hs, hsb⟩ := hb
    rw [← hsb]
    exact paginateAux_pages_ne fetch "page" nextIncr 1000001 _ _ s hs

/-- Witness for the amended C2 at a concrete ascending two-batch run. -/
theorem C2_paginated_updated_at_monotone_witness :
    (PaginatedPull_yield_pages fetchPag "2020-01-01T00:00:00"
        ⟨some 3, none, none⟩).trace.map Bookmark.updated_at =
      (PaginatedPull_yield_pages fetchPag "2020-01-01T00:00:00"
        ⟨some 3, none, none⟩).batches.map (fun p => some (lastTS p)) ∧
    ascendingStr ((PaginatedPull_yield_pages fetchPag "2020-01-01T00:00:00"
        ⟨some 3, none, none⟩).batches.map lastTS) = true :=
  ⟨(C2_paginated_updated_at_monotone fetchPag "2020-01-01T00:00:00"
      ⟨some 3, none, none⟩ _ rfl).1,
   (C2_paginated_updated_at_monotone fetchPag "2020-01-01T00:00:00"
      ⟨some 3, none, none⟩ _ rfl).2.2 (by decide)⟩

/-- C5: the Journal strategy resumes from the bookmarked `journal_number`
(default 0); every subsequent request's `offset` is exactly the
`JournalNumber` of the last record of the preceding batch (not an
incremented page number); at each yield point only `journal_number` is
written — `page` and `updated_at` are untouched — and it equals the last
record's sequence number; on completion nothing is reset: the final
bookmark keeps the last sequence number, or is unchanged when no batch was
yielded. -/
theorem C5_journal_offset (fetch : Options → List Rec) (bm0 : Bookmark) (cell : Options)
    (r : RunResult) (hr : r = JournalPull_yield_pages fetch bm0 cell) :
    (r.requests ≠ [] ∧
      getOpt (r.requests.getD 0 []) "offset" =
        some (OptVal.nat (bm0.journal_number.getD 0))) ∧
    (∀ i, i + 1 < r.requests.length → i < r.batches.length →
      getOpt (r.requests.getD (i + 1) []) "offset" =
        some (OptVal.nat ((r.batches.getD i []).getLastD default).journalNumber)) ∧
    (∀ n, n < r.trace.length →
      (r.trace.getD n emptyBookmark).page = bm0.page ∧
      (r.trace.getD n emptyBookmark).updated_at = bm0.updated_at ∧
      (r.trace.getD n emptyBookmark).journal_number =
        some ((r.batches.getD n []).getLastD default).journalNumber) ∧
    r.finalBm.page = bm0.page ∧
    r.finalBm.updated_at = bm0.updated_at ∧
    (r.batches = [] → r.finalBm = bm0) ∧
    (r.batches ≠ [] → r.finalBm.journal_number =
      some ((r.batches.getLastD []).getLastD default).journalNumber) := by
  subst hr
  refine ⟨⟨?_, ?_⟩, ?_, ?_, ?_, ?_, ?_, ?_⟩
  · simp only [JournalPull_yield_pages, paginate]
    exact paginateAux_requests_ne_nil fetch "offset" _ 1000001 cell _ (by omega)
  · simp only [JournalPull_yield_pages, paginate]
    exact paginateAux_requests_first fetch "offset" _ 1000001 cell _
      (paginateAux_requests_ne_nil fetch "offset" _ 1000001 cell _ (by omega))
  · intro i hi hb
    simp only [JournalPull_yield_pages, paginate] at hi hb ⊢
    rw [List.length_map] at hb
    rw [paginateAux_requests_constNext fetch "offset"
      (fun page => (page.getLastD default).journalNumber) 1000001 cell _ i hi hb]
    rw [getD_map_lt _ _ i [] ([], 0) hb]
  · intro n hn
    simp only [JournalPull_yield_pages, paginate, bmTrace_journalUpd] at hn ⊢
    rw [List.length_map] at hn
    rw [getD_map_lt _ _ n emptyBookmark ([], 0) hn,
      getD_map_lt _ _ n [] ([], 0) hn]
    refine ⟨rfl, rfl, ?_⟩
    have hs := paginateAux_pages_constNext fetch "offset"
      (fun page => (page.getLastD default).journalNumber) 1000001 cell
      (bm0.journal_number.getD 0) _ (getD_mem_lt _ n ([], 0) hn)
    rw [hs]
  · simp only [JournalPull_yield_pages, paginate, bmTrace_journalUpd]
    by_cases hp : (paginateAux fetch "offset"
        (fun _ page => (page.getLastD default).journalNumber) 1000001 cell
        (bm0.journal_number.getD 0)).pages = []
    · rw [hp]
      simp
    · rw [getLastD_map _ _ bm0 ([], 0) hp]
  · simp only [JournalPull_yield_pages, paginate, bmTrace_journalUpd]
    by_cases hp : (paginateAux fetch "offset"
        (fun _ page => (page.getLastD default).journalNumber) 1000001 cell
        (bm0.journal_number.getD 0)).pages = []
    · rw [hp]
      simp
    · rw [getLastD_map _ _ bm0 ([], 0) hp]
  · intro hb
    simp only [JournalPull_yield_pages, paginate, bmTrace_journalUpd] at hb ⊢
    rw [List.map_eq_nil_iff] at hb
    rw [hb]
    simp
  · intro hb
    simp only [JournalPull_yield_pages, paginate, bmTrace_journalUpd] at hb ⊢
    rw [ne_eq, List.map_eq_nil_iff] at hb
    rw [getLastD_map _ _ bm0 ([], 0) hb, getLastD_map _ _ [] ([], 0) hb]
    have hs := paginateAux_pages_constNext fetch "offset"
      (fun page => (page.getLastD default).journalNumber) 1000001 cell
      (bm0.journal_number.getD 0) _ (getLastD_mem_ne _ ([], 0) hb)
    rw [hs]

/-- Witness for C5 at the concrete journal backend: bookmarked sequence 41,
batch ending in sequence 57; the first request's offset is 41 and the final
bookmark's `journal_number` is exactly 57, with `page` and `updated_at`
untouched. -/
theorem C5_journal_offset_witness :
    getOpt ((JournalPull_yield_pages fetchJournal ⟨none, none, some 41⟩
        []).requests.getD 0 []) "offset" = some (OptVal.nat 41) ∧
    (JournalPull_yield_pages fetchJournal ⟨none, none, some 41⟩
        []).finalBm.journal_number = some 57 ∧
    (JournalPull_yield_pages fetchJournal ⟨none, none, some 41⟩
        []).finalBm.updated_at = none := by
  have h := C5_journal_offset fetchJournal ⟨none, none, some 41⟩ [] _ rfl
  refine ⟨h.1.2, ?_, h.2.2.2.2.1⟩
  have h57 := h.2.2.2.2.2.2 (by decide)
  rw [h57]
  decide

/-- C6: the LinkedTransactions strategy walks every page from the
bookmarked page number (consecutive page numbers, like the Paginated
variant); each yielded batch is exactly the fetched page with the records
strictly older than the run's start cursor filtered out; and — provided the
backend's response depends only on the requested page number — the bookmark
trace, the final bookmark (including the reset of `page` to `None` on
completion) and the error behavior coincide with those of the Paginated
variant on the same backend, as if the filtered-out records had been
yielded. -/
theorem C6_linked_filtered_pagination (fetch : Options → List Rec) (start_date : String)
    (bm0 : Bookmark) (cell : Options)
    (hf : ∀ o o', getOpt o "page" = getOpt o' "page" → fetch o = fetch o')
    (r p : RunResult)
    (hrl : r = LinkedTransactionsPull_yield_pages fetch start_date bm0 cell)
    (hp : p = PaginatedPull_yield_pages fetch start_date bm0) :
    (∀ i, i < r.requests.length →
      getOpt (r.requests.getD i []) "page" =
        some (OptVal.nat (firstPageNum bm0.page + i))) ∧
    r.batches = p.batches.map (fun page =>
      page.filter (fun x =>
        strLeb (strftimeCursor (update_start_state start_date bm0).2)
          x.updatedDateUTC)) ∧
    r.trace = p.trace ∧
    r.finalBm = p.finalBm ∧
    r.err = p.err := by
  subst hrl
  subst hp
  obtain ⟨hpages, hrun⟩ := paginateAux_congr_fetch fetch "page" nextIncr hf 1000001
    cell
    [("since", OptVal.str (update_start_state start_date bm0).2),
      ("order", OptVal.str order_by)]
    (firstPageNum (update_start_state start_date bm0).1.page)
  refine ⟨?_, ?_, ?_, ?_, ?_⟩
  · intro i hi
    simp only [LinkedTransactionsPull_yield_pages, paginate] at hi ⊢
    rw [paginateAux_requests_nextIncr fetch "page" 1000001 _ _ i hi]
    rw [update_start_state_page]
  · simp only [LinkedTransactionsPull_yield_pages, PaginatedPull_yield_pages, paginate]
    rw [hpages, List.map_map]
    rfl
  · simp only [LinkedTransactionsPull_yield_pages, PaginatedPull_yield_pages, paginate]
    rw [hpages]
  · simp only [LinkedTransactionsPull_yield_pages, PaginatedPull_yield_pages, paginate]
    rw [hpages, hrun]
  · simp only [LinkedTransactionsPull_yield_pages, PaginatedPull_yield_pages, paginate]
    rw [hrun]

/-- Concrete filtered-pagination backend: page 1 carries one record older
than the start cursor and one newer, page 2 is empty; the response depends
only on the requested page number. -/
def fetchLink : Options → List Rec := fun o =>
  match getOpt o "page" with
  | some (.nat 1) =>
    [⟨"2019-12-31T00:00:00", "", 1⟩, ⟨"2020-01-02T00:00:00", "", 2⟩]
  | _ => []

/-- Witness for C6: with a start cursor of `2020-01-01T00:00:00`, only the
`2020-01-02` record is yielded, while the bookmark trace matches the
Paginated variant's (whose `updated_at` comes from the unfiltered page). -/
theorem C6_linked_filtered_pagination_witness :
    (LinkedTransactionsPull_yield_pages fetchLink "2020-01-01T00:00:00"
        emptyBookmark []).batches =
      (PaginatedPull_yield_pages fetchLink "2020-01-01T00:00:00"
          emptyBookmark).batches.map (fun page =>
        page.filter (fun x =>
          strLeb (strftimeCursor
            (update_start_state "2020-01-01T00:00:00" emptyBookmark).2)
            x.updatedDateUTC)) ∧
    (LinkedTransactionsPull_yield_pages fetchLink "2020-01-01T00:00:00"
        emptyBookmark []).trace =
      (PaginatedPull_yield_pages fetchLink "2020-01-01T00:00:00"
        emptyBookmark).trace ∧
    (LinkedTransactionsPull_yield_pages fetchLink "2020-01-01T00:00:00"
        emptyBookmark []).batches = [[⟨"2020-01-02T00:00:00", "", 2⟩]] := by
  have h := C6_linked_filtered_pagination fetchLink "2020-01-01T00:00:00"
    emptyBookmark []
    (fun o o' ho => by unfold fetchLink; rw [ho]) _ _ rfl rfl
  exact ⟨h.2.1, h.2.2.1, by decide⟩

/-- C8 counterexample: the claim says `updated_at` is seeded exactly when
absent, and an existing `updated_at` is left unchanged; but the code tests
Python truthiness, so a present-but-empty `updated_at` is also overwritten
with the configured start date. -/
theorem C8_counterexample_empty_string :
    (readBookmark "linked"
      ⟨some [("linked", ⟨none, some "", none⟩)], []⟩).updated_at = some "" ∧
    (readBookmark "linked"
        (update_start_state_state "2017-01-01T00:00:00" "linked"
          ⟨some [("linked", ⟨none, some "", none⟩)], []⟩).1).updated_at =
      some "2017-01-01T00:00:00" ∧
    (some "2017-01-01T00:00:00" : Option String) ≠ some "" := by
  refine ⟨by decide, by decide, by decide⟩

/-- C8 (amended): for every pipeline state — including one with no
`bookmarks` key, no per-stream entry, or no `updated_at` — the
state-level `_update_start_state` totally succeeds: it lazily creates the
nested bookmark structure, seeds `updated_at` from the configured start
date exactly when the stored value is falsy (absent or empty), leaves a
non-empty existing `updated_at` unchanged, leaves the other cursor fields
untouched, and returns the parsed cursor value. -/
theorem C8_update_start_state_lazy (start_date sid : String) (st : TapState) :
    (update_start_state_state start_date sid st).1.bookmarks.isSome = true ∧
    (lookupBm ((update_start_state_state start_date sid st).1.bookmarks.getD [])
      sid).isSome = true ∧
    (readBookmark sid (update_start_state_state start_date sid st).1).updated_at =
      (if pyFalsy (readBookmark sid st).updated_at then some start_date
       else (readBookmark sid st).updated_at) ∧
    (update_start_state_state start_date sid st).2 =
      ((readBookmark sid (update_start_state_state start_date sid st).1).updated_at).getD
        "" ∧
    (readBookmark sid (update_start_state_state start_date sid st).1).page =
      (readBookmark sid st).page ∧
    (readBookmark sid (update_start_state_state start_date sid st).1).journal_number =
      (readBookmark sid st).journal_number := by
  have hread : readBookmark sid (update_start_state_state start_date sid st).1 =
      (update_start_state start_date (readBookmark sid st)).1 := by
    show readBookmark sid (writeBookmark sid _ _) = _
    rw [readBookmark_writeBookmark, readBookmark_ensureBookmark]
  refine ⟨?_, ?_, ?_, ?_, ?_, ?_⟩
  · simp [update_start_state_state, writeBookmark]
  · simp [update_start_state_state, writeBookmark, lookupBm_setBm_self]
  · rw [hread]
    unfold update_start_state set_last_updated
    by_cases h : pyFalsy (readBookmark sid st).updated_at = true
    · simp [h]
    · simp [h]
  · rw [hread]
    show (update_start_state start_date (readBookmark sid (ensureBookmark sid st))).2 = _
    rw [readBookmark_ensureBookmark]
    rfl
  · rw [hread, update_start_state_page]
  · rw [hread, update_start_state_journal]

/-- C9: every strategy run mutates at most the per-stream entry
`state["bookmarks"][tap_stream_id]`: all other top-level keys of the
pipeline state and all other streams' bookmark entries are preserved (the
in-place mutation of the driver's mapping is modelled as this frame
condition on the state's contents). -/
theorem C9_state_frame (s : Strategy) (e : Env) (sid : String) (st : TapState) :
    (strategyRunState s e sid st).extra = st.extra ∧
    ∀ sid', sid' ≠ sid →
      lookupBm ((strategyRunState s e sid st).bookmarks.getD []) sid' =
        lookupBm (st.bookmarks.getD []) sid' := by
  cases s with
  | everything => exact ⟨rfl, fun sid' _ => rfl⟩
  | incrementing =>
    exact ⟨writeBookmark_extra _ _ _, fun sid' h => writeBookmark_frame _ _ _ _ h⟩
  | bankTransfers =>
    exact ⟨writeBookmark_extra _ _ _, fun sid' h => writeBookmark_frame _ _ _ _ h⟩
  | paginated =>
    exact ⟨writeBookmark_extra _ _ _, fun sid' h => writeBookmark_frame _ _ _ _ h⟩
  | journal =>
    exact ⟨writeBookmark_extra _ _ _, fun sid' h => writeBookmark_frame _ _ _ _ h⟩
  | linkedTransactions =>
    exact ⟨writeBookmark_extra _ _ _, fun sid' h => writeBookmark_frame _ _ _ _ h⟩

/-- Witness for C9: a paginated run over stream `"a"` leaves the other
top-level key and stream `"b"`'s bookmark entry untouched. -/
theorem C9_state_frame_witness :
    (strategyRunState .paginated ⟨fetchPag, "2020-01-01T00:00:00", []⟩ "a"
        ⟨some [("b", ⟨some 2, some "x", none⟩)], [("currently_syncing", 1)]⟩).extra =
      [("currently_syncing", 1)] ∧
    lookupBm ((strategyRunState .paginated ⟨fetchPag, "2020-01-01T00:00:00", []⟩ "a"
        ⟨some [("b", ⟨some 2, some "x", none⟩)], [("currently_syncing", 1)]⟩).bookmarks.getD
          []) "b" =
      some ⟨some 2, some "x", none⟩ := by
  have h := C9_state_frame .paginated ⟨fetchPag, "2020-01-01T00:00:00", []⟩ "a"
    ⟨some [("b", ⟨some 2, some "x", none⟩)], [("currently_syncing", 1)]⟩
  exact ⟨h.1, h.2 "b" (by decide)⟩

/-- C10: `_paginate`'s mutable default `options={}` dict is shared across
the invocations that omit the argument. After a Journal run with the shared
cell the `"offset"` key it wrote is still present; a later
LinkedTransactions run handed that same cell then issues every request with
the stale `"offset"` value in addition to its own `"page"` key. -/
theorem C10_shared_default_options (fetchJ fetchL : Options → List Rec)
    (bmJ bmL : Bookmark) (start_date : String) (c1 : Options)
    (hc : c1 = (JournalPull_yield_pages fetchJ bmJ []).finalOpts) :
    (getOpt c1 "offset").isSome = true ∧
    ∀ q ∈ (LinkedTransactionsPull_yield_pages fetchL start_date bmL c1).requests,
      getOpt q "offset" = getOpt c1 "offset" ∧
      (getOpt q "page").isSome = true := by
  subst hc
  constructor
  · simp only [JournalPull_yield_pages, paginate]
    exact paginateAux_finalOpts_key fetchJ "offset" _ 1000001 [] _ (Or.inl (by omega))
  · intro q hq
    simp only [LinkedTransactionsPull_yield_pages, paginate] at hq
    constructor
    · exact (paginateAux_requests_preserve fetchL "page" nextIncr "offset" (by decide)
        1000001 _ _).1 q hq
    · exact paginateAux_requests_key fetchL "page" nextIncr 1000001 _ _ q hq

/-- Witness for C10: after the concrete Journal run the shared cell holds
`offset = 57`; the first request of the following LinkedTransactions run
still carries that stale offset next to its own `page` key. -/
theorem C10_shared_default_options_witness :
    (getOpt (JournalPull_yield_pages fetchJournal ⟨none, none, some 41⟩
      []).finalOpts "offset").isSome = true ∧
    getOpt ((LinkedTransactionsPull_yield_pages fetchLink "2020-01-01T00:00:00"
        emptyBookmark
        (JournalPull_yield_pages fetchJournal ⟨none, none, some 41⟩
          []).finalOpts).requests.getD 0 []) "offset" =
      getOpt (JournalPull_yield_pages fetchJournal ⟨none, none, some 41⟩
        []).finalOpts "offset" ∧
    (getOpt ((LinkedTransactionsPull_yield_pages fetchLink "2020-01-01T00:00:00"
        emptyBookmark
        (JournalPull_yield_pages fetchJournal ⟨none, none, some 41⟩
          []).finalOpts).requests.getD 0 []) "page").isSome = true := by
  have h := C10_shared_default_options fetchJournal fetchLink ⟨none, none, some 41⟩
    emptyBookmark "2020-01-01T00:00:00" _ rfl
  have hm : (LinkedTransactionsPull_yield_pages fetchLink "2020-01-01T00:00:00"
      emptyBookmark
      (JournalPull_yield_pages fetchJournal ⟨none, none, some 41⟩
        []).finalOpts).requests.getD 0 [] ∈
      (LinkedTransactionsPull_yield_pages fetchLink "2020-01-01T00:00:00"
        emptyBookmark
        (JournalPull_yield_pages fetchJournal ⟨none, none, some 41⟩
          []).finalOpts).requests := by decide
  exact ⟨h.1, (h.2 _ hm).1, (h.2 _ hm).2⟩

end TapXero
